import Mathlib

/-!
Verification of the HTML-extraction library in src/lib/htmlparser.c.

Strings are modelled as lists of bytes (`List Nat`); C strings carry no
embedded null bytes, so a `List Nat` stands for the bytes before the
terminating null, and a function that writes a null terminator is modelled
by the end of the list together with explicit capacity bookkeeping where
the claim is about buffer sizing. Fallible allocation is modelled by
boolean oracles: `true` means the corresponding malloc/realloc succeeds.
The lexbor library calls made by `parseHTML` are modelled by an
environment record describing each call's outcome, and the sequence of
matched nodes that `lxb_selectors_find` feeds to the callback.
-/

set_option maxHeartbeats 1000000

/-- ASCII whitespace test used by `cleanText` in htmlparser.c:
space, tab, newline, carriage return. -/
def isWS (c : Nat) : Bool := c == 32 || c == 9 || c == 10 || c == 13

/-- Embedding of `escapeJSON` (htmlparser.c lines 112-141): the loop body,
with the output buffer represented as the list of bytes written before the
final null terminator. Byte values: 34 is the double quote, 92 the
backslash, 10 newline, 13 carriage return, 9 tab. -/
def escapeJSON : List Nat → List Nat
  | [] => []
  | c :: rest =>
    if c = 34 ∨ c = 92 then 92 :: c :: escapeJSON rest
    else if c = 10 then 92 :: 110 :: escapeJSON rest
    else if c = 13 then 92 :: 114 :: escapeJSON rest
    else if c = 9 then 92 :: 116 :: escapeJSON rest
    else c :: escapeJSON rest

/-- Spec-side per-byte substitution table, following the spec's words in
section 4.2: quote, backslash, newline, carriage return and tab map to
their two-byte escape sequences, every other byte passes through
unchanged. -/
def escapeSpecByte (c : Nat) : List Nat :=
  if c = 34 then [92, 34]
  else if c = 92 then [92, 92]
  else if c = 10 then [92, 110]
  else if c = 13 then [92, 114]
  else if c = 9 then [92, 116]
  else [c]

/-- Spec-side escaper: the per-byte substitution applied independently to
each input byte. -/
def escapeSpec (s : List Nat) : List Nat := (s.map escapeSpecByte).flatten

/-- A byte list made only of the two-byte escape sequences emitted by the
escaper and of plain bytes that are not a literal quote (a literal
backslash always starts an escape pair). This is the sense in which no
unescaped quote or backslash appears in emitted content. -/
def escapedSeqB : List Nat → Bool
  | [] => true
  | c :: rest =>
    if c = 92 then
      match rest with
      | [] => false
      | d :: rest2 =>
        decide (d = 34 ∨ d = 92 ∨ d = 110 ∨ d = 114 ∨ d = 116) && escapedSeqB rest2
    else decide (c ≠ 34) && escapedSeqB rest

/-- Embedding of the loop of `cleanText` (htmlparser.c lines 84-99): the
output buffer is the `cleaned` accumulator, `writePos` is its length, and
`lastWasSpace` is the loop flag (initially true so leading whitespace is
skipped). Byte 32 is the ASCII space written for a collapsed run. -/
def cleanTextLoop : List Nat → List Nat → Bool → List Nat
  | [], cleaned, _ => cleaned
  | c :: rest, cleaned, lastWasSpace =>
    if isWS c = true then
      if lastWasSpace = false ∧ 0 < cleaned.length then
        cleanTextLoop rest (cleaned ++ [32]) true
      else
        cleanTextLoop rest cleaned lastWasSpace
    else
      cleanTextLoop rest (cleaned ++ [c]) false

/-- Embedding of `cleanText` (htmlparser.c lines 75-109): run the loop,
then drop the single possible trailing space (lines 102-104), then write
the null terminator (implicit in the list representation). -/
def cleanText (text : List Nat) : List Nat :=
  let cleaned := cleanTextLoop text [] true
  if 0 < cleaned.length ∧ cleaned.getLast? = some 32 then cleaned.dropLast else cleaned

/-- Accumulator-free form of the `cleanText` loop, used for proofs; it
agrees with `cleanTextLoop` whenever `lastWasSpace = false` implies a
nonempty accumulator, which holds on every reachable state. -/
def cleanLoop : List Nat → Bool → List Nat
  | [], _ => []
  | c :: rest, lastWasSpace =>
    if isWS c = true then
      if lastWasSpace = false then 32 :: cleanLoop rest true
      else cleanLoop rest true
    else
      c :: cleanLoop rest false

/-- Drop the final byte when it is a space: the trailing-space removal of
`cleanText`. -/
def dropTrail (l : List Nat) : List Nat :=
  if l.getLast? = some 32 then l.dropLast else l

/-- Spec-side tokenizer: the maximal runs of non-whitespace bytes of the
input, in order. `cur` accumulates the current run in reverse. -/
def wordsOfAux : List Nat → List Nat → List (List Nat)
  | [], cur => if cur.isEmpty then [] else [cur.reverse]
  | c :: rest, cur =>
    if isWS c = true then
      if cur.isEmpty then wordsOfAux rest [] else cur.reverse :: wordsOfAux rest []
    else wordsOfAux rest (c :: cur)

/-- Spec-side tokenizer entry point: the spec's normalizer is these words
joined by single spaces. -/
def wordsOf (s : List Nat) : List (List Nat) := wordsOfAux s []

/-- Embedding of `ResultCollector` (htmlparser.c lines 16-21): `json` is
the used bytes of the buffer (before the null terminator), `size` mirrors
the C field, `capacity` the allocated byte count. -/
structure ResultCollector where
  json : List Nat
  size : Nat
  capacity : Nat
  itemCount : Nat
deriving DecidableEq, Repr

/-- Embedding of `resultCollectorCreate` (htmlparser.c lines 24-40) in the
successful-allocation case: capacity 4096, buffer holding the single byte
91 (the opening bracket), size 1, no items. -/
def resultCollectorCreate : ResultCollector :=
  { json := [91], size := 1, capacity := 4096, itemCount := 0 }

/-- The capacity-doubling loop of `resultCollectorAppend` (htmlparser.c
lines 49-51): double until the capacity reaches `needed`. The extra
`0 < newCapacity` guard only rules out the state the C loop could never
leave (a zero capacity doubles to zero forever); every capacity arising
in the program is positive. -/
def doubleUntil (newCapacity needed : Nat) : Nat :=
  if h : 0 < newCapacity ∧ newCapacity < needed then doubleUntil (newCapacity * 2) needed
  else newCapacity
termination_by needed - newCapacity
decreasing_by omega

/-- Embedding of `resultCollectorAppend` (htmlparser.c lines 43-64).
`reallocOk` is the allocation oracle for the realloc call; `none` models
the return value 0 of the C function, in which case nothing was written
and the caller's collector (with its prior contents) is untouched. -/
def resultCollectorAppend (reallocOk : Bool) (collector : ResultCollector)
    (str : List Nat) : Option ResultCollector :=
  let len := str.length
  let needed := collector.size + len + 1
  if collector.capacity < needed then
    let newCapacity := doubleUntil (collector.capacity * 2) needed
    if reallocOk = false then none
    else some { json := collector.json ++ str, size := collector.size + len,
                capacity := newCapacity, itemCount := collector.itemCount }
  else
    some { collector with json := collector.json ++ str, size := collector.size + len }

/-- An append whose return value is ignored, as `selectorCallback` and
`parseHTML` do: on failure the collector is left as it was. -/
def appendOrKeep (reallocOk : Bool) (collector : ResultCollector) (str : List Nat) :
    ResultCollector :=
  match resultCollectorAppend reallocOk collector str with
  | some c => c
  | none => collector

/-- A DOM node as consumed by `selectorCallback`: whether it is an element
node, the element's local tag name when lexbor reports one, and the
node's text content (`none` models a null return of
`lxb_dom_node_text_content`). -/
structure Node where
  isElement : Bool
  tagName : Option (List Nat)
  content : Option (List Nat)
deriving DecidableEq, Repr

/-- Allocation oracle for one callback invocation: whether the mallocs in
`cleanText` and `escapeJSON` and the reallocs behind each of the four
possible appends succeed. -/
structure AllocProfile where
  cleanOk : Bool
  escapeOk : Bool
  commaOk : Bool
  headerOk : Bool
  contentOk : Bool
  closeOk : Bool
deriving DecidableEq, Repr

/-- The all-allocations-succeed oracle. -/
def allocAllOk : AllocProfile :=
  { cleanOk := true, escapeOk := true, commaOk := true, headerOk := true,
    contentOk := true, closeOk := true }

/-- The lexbor success status; every return statement of
`selectorCallback` returns it. -/
def LXB_STATUS_OK : Nat := 0

/-- Tag-name selection of `selectorCallback` (htmlparser.c lines 147-155):
the element's local name when present, the literal bytes of the word
text (116 101 120 116) otherwise. -/
def nodeTypeOf (node : Node) : List Nat :=
  if node.isElement = true then
    match node.tagName with
    | some t => t
    | none => [116, 101, 120, 116]
  else [116, 101, 120, 116]

/-- Bytes of the format string head written by the snprintf call at
htmlparser.c line 188, up to the tag name: left brace, quote, t y p e,
quote, colon, quote. -/
def typeKey : List Nat := [123, 34, 116, 121, 112, 101, 34, 58, 34]

/-- Bytes of the format string tail after the tag name: quote, comma,
quote, c o n t e n t, quote, colon, quote. -/
def contentKey : List Nat := [34, 44, 34, 99, 111, 110, 116, 101, 110, 116, 34, 58, 34]

/-- Bytes appended at htmlparser.c line 191 to close an item: quote,
right brace. -/
def itemClose : List Nat := [34, 125]

/-- The untruncated output of the snprintf format for a given tag name. -/
def itemHeader (tag : List Nat) : List Nat := typeKey ++ tag ++ contentKey

/-- What the snprintf call at line 188 actually stores into the 256-byte
stack buffer: at most 255 bytes of the formatted text plus the null
terminator. -/
def snprintfItem (tag : List Nat) : List Nat := (itemHeader tag).take 255

/-- One serialized item of the output grammar in section 6 of the spec. -/
def ItemStr (tag content : List Nat) : List Nat := itemHeader tag ++ content ++ itemClose

/-- A complete serialized array of the output grammar: bracket, items
joined by commas, closing bracket. -/
def JsonArrayStr (items : List (List Nat)) : List Nat :=
  [91] ++ List.intercalate [44] items ++ [93]

/-- Tag-name bytes that cannot break the string literal they are spliced
into: no quote and no backslash (HTML tag names are alphanumeric). -/
def tagSafe (tag : List Nat) : Bool := tag.all (fun c => !(c == 34) && !(c == 92))

/-- A byte list that is one grammatical item with a safe tag and escaped
content. -/
def GoodItem (l : List Nat) : Prop :=
  ∃ tag content, tagSafe tag = true ∧ escapedSeqB content = true ∧ l = ItemStr tag content

/-- A byte list that is a complete well-formed serialized array. -/
def IsValidArray (l : List Nat) : Prop :=
  ∃ items, (∀ i ∈ items, GoodItem i) ∧ l = JsonArrayStr items

/-- A byte list that is a prefix of some complete well-formed serialized
array: some continuation, ending in the closing bracket, completes it. -/
def ValidArrayExtendable (l : List Nat) : Prop := ∃ rest, IsValidArray (l ++ rest)

/-- The collector states reached between the callback's appends: the
buffer is the opening bracket followed by finished items joined by
commas, the item count matches, `size` mirrors the buffer length, and the
capacity leaves room for the null terminator. -/
def CollectorInv (c : ResultCollector) : Prop :=
  ∃ items, (∀ i ∈ items, GoodItem i) ∧
    c.json = [91] ++ List.intercalate [44] items ∧
    c.itemCount = items.length ∧
    c.size = c.json.length ∧
    c.size + 1 ≤ c.capacity

/-- Embedding of `selectorCallback` (htmlparser.c lines 144-197). The
returned status is `LXB_STATUS_OK` on every path, exactly as in the
source; allocation failures of `cleanText` and `escapeJSON` take the same
skip paths as null or empty content, and failed appends leave the
collector untouched because their return value is ignored. -/
def selectorCallback (alloc : AllocProfile) (node : Node) (collector : ResultCollector) :
    Nat × ResultCollector :=
  let nodeType := nodeTypeOf node
  match node.content with
  | none => (LXB_STATUS_OK, collector)
  | some content =>
    if content.length = 0 then (LXB_STATUS_OK, collector)
    else if alloc.cleanOk = false then (LXB_STATUS_OK, collector)
    else
      let cleanedContent := cleanText content
      if cleanedContent.length = 0 then (LXB_STATUS_OK, collector)
      else if alloc.escapeOk = false then (LXB_STATUS_OK, collector)
      else
        let escapedContent := escapeJSON cleanedContent
        let c1 := if 0 < collector.itemCount then appendOrKeep alloc.commaOk collector [44]
                  else collector
        let c2 := appendOrKeep alloc.headerOk c1 (snprintfItem nodeType)
        let c3 := appendOrKeep alloc.contentOk c2 escapedContent
        let c4 := appendOrKeep alloc.closeOk c3 itemClose
        (LXB_STATUS_OK, { c4 with itemCount := c4.itemCount + 1 })

/-- The collector states after each append performed by one callback
invocation with all allocations succeeding, in program order: the
optional comma, the snprintf header, the escaped content, the closing
quote-brace. Skip paths perform no append. -/
def callbackTrace (node : Node) (collector : ResultCollector) : List ResultCollector :=
  match node.content with
  | none => []
  | some content =>
    if content.length = 0 then []
    else
      let cleanedContent := cleanText content
      if cleanedContent.length = 0 then []
      else
        let escapedContent := escapeJSON cleanedContent
        let c1 := if 0 < collector.itemCount then appendOrKeep true collector [44]
                  else collector
        let c2 := appendOrKeep true c1 (snprintfItem (nodeTypeOf node))
        let c3 := appendOrKeep true c2 escapedContent
        let c4 := appendOrKeep true c3 itemClose
        (if 0 < collector.itemCount then [c1] else []) ++ [c2, c3, c4]

/-- Outcomes of the lexbor calls made by one `parseHTML` invocation, and
the matched nodes (with their allocation oracles) that
`lxb_selectors_find` feeds to the callback. -/
structure Env where
  createDocOk : Bool
  parseStatusOk : Bool
  cssCreateOk : Bool
  cssInitOk : Bool
  selCreateOk : Bool
  selInitOk : Bool
  selListOk : Bool
  collectorOk : Bool
  foundNodes : List (Node × AllocProfile)
  closeAllocOk : Bool
  findStatusOk : Bool
deriving DecidableEq, Repr

/-- `lxb_selectors_find` as used here: invoke the callback on each matched
node in order, threading the collector through. -/
def lxbSelectorsFind (found : List (Node × AllocProfile)) (collector : ResultCollector) :
    ResultCollector :=
  found.foldl (fun acc p => (selectorCallback p.2 p.1 acc).2) collector

/-- Embedding of `parseHTML` (htmlparser.c lines 200-316): argument
validation, the chain of lexbor setup calls with their error messages,
collector creation, the find loop, the closing bracket append (whose
return value is ignored, line 297), the find-status check, and the
success return of the buffer. `Except.error` models the pushNil plus
pushString error pair, `Except.ok` the single pushed JSON string. -/
def parseHTML (env : Env) (html cssSelector : Option (List Nat)) :
    Except String (List Nat) :=
  match html, cssSelector with
  | some _, some _ =>
    if env.createDocOk = false then Except.error "Failed to create document"
    else if env.parseStatusOk = false then Except.error "Failed to parse HTML"
    else if env.cssCreateOk = false then Except.error "Failed to create CSS parser"
    else if env.cssInitOk = false then Except.error "Failed to initialize CSS parser"
    else if env.selCreateOk = false then Except.error "Failed to create selectors"
    else if env.selInitOk = false then Except.error "Failed to initialize selectors"
    else if env.selListOk = false then Except.error "Failed to parse CSS selector"
    else if env.collectorOk = false then Except.error "Out of memory"
    else
      let collector := lxbSelectorsFind env.foundNodes resultCollectorCreate
      let collector2 := appendOrKeep env.closeAllocOk collector [93]
      if env.findStatusOk = false then Except.error "Failed to find elements"
      else Except.ok collector2.json
  | _, _ => Except.error "Invalid arguments"

/-- Whether an extraction result is the success output. -/
def isOkB : Except String (List Nat) → Bool
  | Except.ok _ => true
  | Except.error _ => false

/-- An element node with tag name h1 and text content the single byte 65. -/
def nodeH1A : Node := { isElement := true, tagName := some [104, 49], content := some [65] }

/-- An element node (tag p) whose text content is two spaces. -/
def nodeWhitespaceP : Node :=
  { isElement := true, tagName := some [112], content := some [32, 32] }

/-- An allocation oracle in which only the `escapeJSON` malloc fails. -/
def allocEscapeFails : AllocProfile :=
  { cleanOk := true, escapeOk := false, commaOk := true, headerOk := true,
    contentOk := true, closeOk := true }

/-- An element node with text content the byte 65 whose tag name contains
a literal quote: the bytes 97 34 98, the tag name the HTML tokenizer
produces for an opening tag written a, quote, b (after the initial
letter, a quote is an ordinary tag-name byte). -/
def nodeQuoteTag : Node :=
  { isElement := true, tagName := some [97, 34, 98], content := some [65] }

/-- The buffer contents after the callback finishes one item for
`nodeQuoteTag` on a fresh collector: bracket, the snprintf head with the
quote-bearing tag spliced in raw, the escaped content byte 65, and the
closing quote-brace. -/
def badJson : List Nat :=
  [91] ++ typeKey ++ [97, 34, 98] ++ contentKey ++ [65] ++ [34, 125]

/-- A concrete extraction environment in which every lexbor call succeeds,
one matched element node (tag h1, text content the single byte 65) is
found, and the only failing allocation is the malloc inside `escapeJSON`
for that node. -/
def envEscapeFails : Env :=
  { createDocOk := true, parseStatusOk := true, cssCreateOk := true, cssInitOk := true,
    selCreateOk := true, selInitOk := true, selListOk := true, collectorOk := true,
    foundNodes := [(nodeH1A, allocEscapeFails)],
    closeAllocOk := true, findStatusOk := true }

/-- A concrete extraction environment in which every lexbor call and every
allocation succeeds and no node matches. -/
def envNoMatches : Env :=
  { createDocOk := true, parseStatusOk := true, cssCreateOk := true, cssInitOk := true,
    selCreateOk := true, selInitOk := true, selListOk := true, collectorOk := true,
    foundNodes := [], closeAllocOk := true, findStatusOk := true }

theorem escapedSeqB_escapeJSON (s : List Nat) : escapedSeqB (escapeJSON s) = true := by
  induction s with
  | nil => rfl
  | cons c rest ih =>
    by_cases h1 : c = 34 ∨ c = 92
    · rw [escapeJSON, if_pos h1]
      rcases h1 with h | h <;> subst h <;> simp [escapedSeqB, ih]
    · have hc34 : c ≠ 34 := fun h => h1 (Or.inl h)
      have hc92 : c ≠ 92 := fun h => h1 (Or.inr h)
      by_cases h2 : c = 10
      · rw [escapeJSON, if_neg h1, if_pos h2]; simp [escapedSeqB, ih]
      · by_cases h3 : c = 13
        · rw [escapeJSON, if_neg h1, if_neg h2, if_pos h3]; simp [escapedSeqB, ih]
        · by_cases h4 : c = 9
          · rw [escapeJSON, if_neg h1, if_neg h2, if_neg h3, if_pos h4]
            simp [escapedSeqB, ih]
          · rw [escapeJSON, if_neg h1, if_neg h2, if_neg h3, if_neg h4]
            unfold escapedSeqB
            rw [if_neg hc92]
            simp [hc34, ih]

theorem escapeJSON_length_le (s : List Nat) : (escapeJSON s).length ≤ 2 * s.length := by
  induction s with
  | nil => simp [escapeJSON]
  | cons c rest ih =>
    by_cases h1 : c = 34 ∨ c = 92
    · rw [escapeJSON, if_pos h1]; simp only [List.length_cons]; omega
    · by_cases h2 : c = 10
      · rw [escapeJSON, if_neg h1, if_pos h2]; simp only [List.length_cons]; omega
      · by_cases h3 : c = 13
        · rw [escapeJSON, if_neg h1, if_neg h2, if_pos h3]
          simp only [List.length_cons]; omega
        · by_cases h4 : c = 9
          · rw [escapeJSON, if_neg h1, if_neg h2, if_neg h3, if_pos h4]
            simp only [List.length_cons]; omega
          · rw [escapeJSON, if_neg h1, if_neg h2, if_neg h3, if_neg h4]
            simp only [List.length_cons]; omega

/-- C1: the JSON escaper performs exactly the per-byte substitutions of the
spec (quote, backslash, newline, carriage return, tab become two-byte
escapes; every other byte, control characters included, passes through
unchanged), its output together with the null terminator fits the
allocated worst-case buffer of twice the input length plus one byte, and
the output contains no literal unescaped quote or backslash byte: it is a
concatenation of escape pairs and of plain bytes other than quote and
backslash. -/
theorem escapeJSON_meets_spec (s : List Nat) :
    escapeJSON s = escapeSpec s ∧
    escapedSeqB (escapeJSON s) = true ∧
    (escapeJSON s).length + 1 ≤ 2 * s.length + 1 := by
  refine ⟨?_, escapedSeqB_escapeJSON s, by have := escapeJSON_length_le s; omega⟩
  induction s with
  | nil => rfl
  | cons c rest ih =>
    by_cases h1 : c = 34 ∨ c = 92
    · rw [escapeJSON, if_pos h1]
      rcases h1 with h | h <;> subst h <;> simp [escapeSpec, escapeSpecByte, ih]
    · have hc34 : c ≠ 34 := fun h => h1 (Or.inl h)
      have hc92 : c ≠ 92 := fun h => h1 (Or.inr h)
      by_cases h2 : c = 10
      · rw [escapeJSON, if_neg h1, if_pos h2]
        subst h2; simp [escapeSpec, escapeSpecByte, ih]
      · by_cases h3 : c = 13
        · rw [escapeJSON, if_neg h1, if_neg h2, if_pos h3]
          subst h3; simp [escapeSpec, escapeSpecByte, ih]
        · by_cases h4 : c = 9
          · rw [escapeJSON, if_neg h1, if_neg h2, if_neg h3, if_pos h4]
            subst h4; simp [escapeSpec, escapeSpecByte, ih]
          · rw [escapeJSON, if_neg h1, if_neg h2, if_neg h3, if_neg h4]
            simp [escapeSpec, escapeSpecByte, hc34, hc92, h2, h3, h4, ih]

theorem intercalate_cons_eq (sep a : List Nat) (l : List (List Nat)) :
    List.intercalate sep (a :: l) =
      a ++ (if l = [] then [] else sep ++ List.intercalate sep l) := by
  cases l with
  | nil => simp [List.intercalate]
  | cons b bs =>
    simp [List.intercalate, List.intersperse_cons_cons, List.append_assoc]

theorem dropTrail_cons (a : Nat) (x : List Nat) (hx : x ≠ []) :
    dropTrail (a :: x) = a :: dropTrail x := by
  cases x with
  | nil => exact absurd rfl hx
  | cons b bs =>
    unfold dropTrail
    rw [List.getLast?_cons_cons]
    by_cases h : (b :: bs).getLast? = some 32
    · rw [if_pos h, if_pos h, List.dropLast_cons₂]
    · rw [if_neg h, if_neg h]

theorem dropTrail_cons_ne (a : Nat) (x : List Nat) (ha : a ≠ 32) :
    dropTrail (a :: x) = a :: dropTrail x := by
  cases x with
  | nil => simp [dropTrail, ha]
  | cons b bs => exact dropTrail_cons a (b :: bs) (by simp)

theorem cleanLoop_nil_iff (s : List Nat) : cleanLoop s true = [] ↔ s.all isWS = true := by
  induction s with
  | nil => simp [cleanLoop]
  | cons c rest ih =>
    by_cases hw : isWS c = true
    · rw [cleanLoop, if_pos hw]
      simp only [List.all_cons, hw, Bool.true_and]
      simpa using ih
    · rw [cleanLoop, if_neg hw]
      simp [hw]

theorem wordsOfAux_ne_nil (s : List Nat) : ∀ cur : List Nat, cur ≠ [] →
    wordsOfAux s cur ≠ [] := by
  induction s with
  | nil =>
    intro cur hcur
    rw [wordsOfAux, if_neg (by simpa [List.isEmpty_iff] using hcur)]
    simp
  | cons c rest ih =>
    intro cur hcur
    by_cases hw : isWS c = true
    · rw [wordsOfAux, if_pos hw, if_neg (by simpa [List.isEmpty_iff] using hcur)]
      simp
    · rw [wordsOfAux, if_neg hw]
      exact ih (c :: cur) (by simp)

theorem wordsOfAux_nil_iff (s : List Nat) : wordsOfAux s [] = [] ↔ s.all isWS = true := by
  induction s with
  | nil => simp [wordsOfAux]
  | cons c rest ih =>
    by_cases hw : isWS c = true
    · rw [wordsOfAux, if_pos hw, if_pos (by simp)]
      simp only [List.all_cons, hw, Bool.true_and]
      exact ih
    · rw [wordsOfAux, if_neg hw]
      constructor
      · intro h; exact absurd h (wordsOfAux_ne_nil rest (c :: []) (by simp))
      · intro h; simp [hw] at h

theorem cleanTextLoop_eq_append (s : List Nat) : ∀ (acc : List Nat) (lws : Bool),
    (lws = false → acc ≠ []) → cleanTextLoop s acc lws = acc ++ cleanLoop s lws := by
  induction s with
  | nil => intro acc lws _; simp [cleanTextLoop, cleanLoop]
  | cons c rest ih =>
    intro acc lws h
    by_cases hw : isWS c = true
    · cases lws with
      | true =>
        rw [cleanTextLoop, if_pos hw, if_neg (by simp), cleanLoop, if_pos hw,
          if_neg (by simp)]
        exact ih acc true (by simp)
      | false =>
        have hacc : acc ≠ [] := h rfl
        have hlen : 0 < acc.length := List.length_pos.mpr hacc
        rw [cleanTextLoop, if_pos hw, if_pos ⟨rfl, hlen⟩, cleanLoop, if_pos hw, if_pos rfl]
        rw [ih (acc ++ [32]) true (by simp)]
        simp
    · rw [cleanTextLoop, if_neg hw, cleanLoop, if_neg hw]
      rw [ih (acc ++ [c]) false (by simp)]
      simp

theorem cleanText_eq_dropTrail (s : List Nat) : cleanText s = dropTrail (cleanLoop s true) := by
  unfold cleanText dropTrail
  rw [cleanTextLoop_eq_append s [] true (by simp), List.nil_append]
  by_cases h : (cleanLoop s true).getLast? = some 32
  · have hne : cleanLoop s true ≠ [] := by
      intro he; rw [he] at h; simp at h
    rw [if_pos ⟨List.length_pos.mpr hne, h⟩, if_pos h]
  · rw [if_neg (fun hc => h hc.2), if_neg h]

theorem wordsOfAux_intercalate (s : List Nat) : ∀ cur : List Nat,
    List.intercalate [32] (wordsOfAux s cur) =
      cur.reverse ++ dropTrail (cleanLoop s cur.isEmpty) := by
  induction s with
  | nil =>
    intro cur
    cases cur with
    | nil => simp [wordsOfAux, cleanLoop, dropTrail, List.intercalate]
    | cons x xs =>
      rw [wordsOfAux, if_neg (by simp)]
      simp [cleanLoop, dropTrail, List.intercalate]
  | cons c rest ih =>
    intro cur
    by_cases hw : isWS c = true
    · cases cur with
      | nil =>
        rw [wordsOfAux, if_pos hw, if_pos (by simp)]
        have hih := ih []
        simp only [List.reverse_nil, List.nil_append, List.isEmpty_nil] at hih ⊢
        rw [cleanLoop, if_pos hw, if_neg (by simp)]
        exact hih
      | cons x xs =>
        have hcur : ¬ ((x :: xs : List Nat).isEmpty = true) := by simp
        have hlws : ((x :: xs : List Nat).isEmpty = false) := by simp
        rw [wordsOfAux, if_pos hw, if_neg hcur]
        rw [intercalate_cons_eq]
        rw [cleanLoop, if_pos hw, if_pos hlws]
        by_cases hrest : cleanLoop rest true = []
        · have hwords : wordsOfAux rest [] = [] :=
            (wordsOfAux_nil_iff rest).mpr ((cleanLoop_nil_iff rest).mp hrest)
          rw [hwords, if_pos rfl, hrest]
          simp [dropTrail]
        · have hwords : ¬ wordsOfAux rest [] = [] := by
            intro hwe
            exact hrest ((cleanLoop_nil_iff rest).mpr ((wordsOfAux_nil_iff rest).mp hwe))
          rw [if_neg hwords, dropTrail_cons 32 _ hrest]
          have hih := ih []
          simp only [List.reverse_nil, List.nil_append, List.isEmpty_nil] at hih
          rw [hih]
          simp
    · rw [wordsOfAux, if_neg hw]
      rw [ih (c :: cur)]
      have hc32 : c ≠ 32 := by
        intro he; rw [he] at hw; simp [isWS] at hw
      rw [cleanLoop, if_neg hw, dropTrail_cons_ne c _ hc32]
      simp

theorem cleanLoop_length_le (s : List Nat) : ∀ lws : Bool,
    (cleanLoop s lws).length ≤ s.length := by
  induction s with
  | nil => intro lws; simp [cleanLoop]
  | cons c rest ih =>
    intro lws
    by_cases hw : isWS c = true
    · cases lws with
      | true =>
        rw [cleanLoop, if_pos hw, if_neg (by simp)]
        have := ih true
        simp only [List.length_cons]
        omega
      | false =>
        rw [cleanLoop, if_pos hw, if_pos rfl]
        have := ih true
        simp only [List.length_cons]
        omega
    · rw [cleanLoop, if_neg hw]
      have := ih false
      simp only [List.length_cons]
      omega

theorem dropTrail_length_le (l : List Nat) : (dropTrail l).length ≤ l.length := by
  unfold dropTrail
  by_cases h : l.getLast? = some 32
  · rw [if_pos h]
    simp [List.length_dropLast]
  · rw [if_neg h]

/-- C5: the text normalizer is the spec's normalizer exactly: its output
is the maximal runs of non-whitespace bytes of the input joined by single
spaces (so every maximal whitespace run collapses to one space and
leading and trailing whitespace is removed), empty or all-whitespace
input yields the empty output, and the output is never longer than the
input. -/
theorem cleanText_meets_spec (s : List Nat) :
    cleanText s = List.intercalate [32] (wordsOf s) ∧
    (s.all isWS = true → cleanText s = []) ∧
    (cleanText s).length ≤ s.length := by
  have hmain : cleanText s = List.intercalate [32] (wordsOf s) := by
    rw [cleanText_eq_dropTrail, wordsOf]
    have := wordsOfAux_intercalate s []
    simp only [List.reverse_nil, List.nil_append, List.isEmpty_nil] at this
    exact this.symm
  refine ⟨hmain, ?_, ?_⟩
  · intro hws
    rw [cleanText_eq_dropTrail, (cleanLoop_nil_iff s).mpr hws]
    rfl
  · rw [cleanText_eq_dropTrail]
    calc (dropTrail (cleanLoop s true)).length ≤ (cleanLoop s true).length :=
          dropTrail_length_le _
      _ ≤ s.length := cleanLoop_length_le s true

/-- Witness for C5 at a concrete input: the all-whitespace byte string
space, tab, space normalizes to the empty string. -/
theorem cleanText_meets_spec_witness :
    ([32, 9, 32] : List Nat).all isWS = true ∧ cleanText [32, 9, 32] = [] :=
  ⟨by decide, (cleanText_meets_spec [32, 9, 32]).2.1 (by decide)⟩

theorem wordsOfAux_good (s : List Nat) : ∀ cur : List Nat,
    cur.all (fun c => !isWS c) = true →
    ∀ w ∈ wordsOfAux s cur, w ≠ [] ∧ w.all (fun c => !isWS c) = true := by
  induction s with
  | nil =>
    intro cur hcur w hw
    by_cases hc : cur.isEmpty = true
    · rw [wordsOfAux, if_pos hc] at hw
      simp at hw
    · rw [wordsOfAux, if_neg hc] at hw
      simp only [List.mem_singleton] at hw
      subst hw
      refine ⟨?_, ?_⟩
      · intro he
        exact hc (List.isEmpty_iff.mpr (List.reverse_eq_nil_iff.mp he))
      · rw [List.all_reverse]
        exact hcur
  | cons c rest ih =>
    intro cur hcur w hw
    by_cases hws : isWS c = true
    · by_cases hc : cur.isEmpty = true
      · rw [wordsOfAux, if_pos hws, if_pos hc] at hw
        exact ih [] (by simp) w hw
      · rw [wordsOfAux, if_pos hws, if_neg hc] at hw
        rcases List.mem_cons.mp hw with h | h
        · subst h
          refine ⟨?_, ?_⟩
          · intro he
            exact hc (List.isEmpty_iff.mpr (List.reverse_eq_nil_iff.mp he))
          · rw [List.all_reverse]
            exact hcur
        · exact ih [] (by simp) w h
    · rw [wordsOfAux, if_neg hws] at hw
      refine ih (c :: cur) ?_ w hw
      simp only [List.all_cons, Bool.and_eq_true]
      exact ⟨by simp [hws], hcur⟩

theorem wordsOfAux_append_word (a : List Nat) : ∀ (cur rest : List Nat),
    a.all (fun c => !isWS c) = true →
    wordsOfAux (a ++ rest) cur = wordsOfAux rest (a.reverse ++ cur) := by
  induction a with
  | nil => intro cur rest _; simp
  | cons c a2 ih =>
    intro cur rest ha
    simp only [List.all_cons, Bool.and_eq_true] at ha
    have hws : ¬ isWS c = true := by
      rcases ha with ⟨h1, _⟩
      simp only [Bool.not_eq_true'] at h1
      simp [h1]
    rw [List.cons_append, wordsOfAux, if_neg hws, ih (c :: cur) rest ha.2]
    congr 1
    simp

theorem wordsOf_intercalate_eq (l : List (List Nat)) :
    (∀ w ∈ l, w ≠ [] ∧ w.all (fun c => !isWS c) = true) →
    wordsOf (List.intercalate [32] l) = l := by
  induction l with
  | nil => intro _; simp [wordsOf, wordsOfAux, List.intercalate]
  | cons a l2 ih =>
    intro h
    have ha := h a (List.mem_cons_self a l2)
    have hane : a.reverse ≠ [] := fun he => ha.1 (List.reverse_eq_nil_iff.mp he)
    rw [intercalate_cons_eq]
    cases l2 with
    | nil =>
      rw [if_pos rfl, wordsOf, wordsOfAux_append_word a [] [] ha.2, List.append_nil]
      rw [wordsOfAux, if_neg (fun he => hane (List.isEmpty_iff.mp he))]
      simp
    | cons b bs =>
      rw [if_neg (by simp), wordsOf,
        wordsOfAux_append_word a [] ([32] ++ List.intercalate [32] (b :: bs)) ha.2,
        List.append_nil]
      have h32 : isWS 32 = true := by decide
      rw [List.singleton_append, wordsOfAux, if_pos h32,
        if_neg (fun he => hane (List.isEmpty_iff.mp he))]
      rw [List.reverse_reverse]
      have hbs : wordsOfAux (List.intercalate [32] (b :: bs)) [] = b :: bs :=
        ih fun w hw => h w (List.mem_cons_of_mem a hw)
      rw [hbs]

theorem cleanText_eq_intercalate_wordsOf (s : List Nat) :
    cleanText s = List.intercalate [32] (wordsOf s) := by
  rw [cleanText_eq_dropTrail, wordsOf]
  have := wordsOfAux_intercalate s []
  simp only [List.reverse_nil, List.nil_append, List.isEmpty_nil] at this
  exact this.symm

/-- C6: the text normalizer is idempotent: normalizing twice gives the
same bytes as normalizing once, so an already-normalized string is
returned unchanged. -/
theorem cleanText_idempotent (s : List Nat) : cleanText (cleanText s) = cleanText s := by
  rw [cleanText_eq_intercalate_wordsOf (cleanText s), cleanText_eq_intercalate_wordsOf s,
    wordsOf_intercalate_eq (wordsOf s) (wordsOfAux_good s [] (by simp))]

theorem doubleUntil_ge_aux : ∀ (m nc needed : Nat), needed - nc ≤ m → 0 < nc →
    needed ≤ doubleUntil nc needed := by
  intro m
  induction m with
  | zero =>
    intro nc needed hm h0
    rw [doubleUntil, dif_neg (by omega : ¬ (0 < nc ∧ nc < needed))]
    omega
  | succ k ih =>
    intro nc needed hm h0
    rw [doubleUntil]
    by_cases hc : 0 < nc ∧ nc < needed
    · rw [dif_pos hc]
      exact ih (nc * 2) needed (by omega) (by omega)
    · rw [dif_neg hc]
      omega

theorem doubleUntil_ge (nc needed : Nat) (h : 0 < nc) : needed ≤ doubleUntil nc needed :=
  doubleUntil_ge_aux (needed - nc) nc needed (Nat.le_refl _) h

theorem doubleUntil_pow_aux : ∀ (m nc needed : Nat), needed - nc ≤ m →
    ∃ k, doubleUntil nc needed = nc * 2 ^ k := by
  intro m
  induction m with
  | zero =>
    intro nc needed hm
    rw [doubleUntil, dif_neg (by omega : ¬ (0 < nc ∧ nc < needed))]
    exact ⟨0, by simp⟩
  | succ k ih =>
    intro nc needed hm
    rw [doubleUntil]
    by_cases hc : 0 < nc ∧ nc < needed
    · rw [dif_pos hc]
      obtain ⟨j, hj⟩ := ih (nc * 2) needed (by omega)
      exact ⟨j + 1, by rw [hj]; ring⟩
    · rw [dif_neg hc]
      exact ⟨0, by simp⟩

theorem resultCollectorAppend_some (c : ResultCollector) (s : List Nat)
    (h0 : 0 < c.capacity) :
    ∃ c2, resultCollectorAppend true c s = some c2 ∧
      c2.json = c.json ++ s ∧ c2.size = c.size + s.length ∧
      c2.itemCount = c.itemCount ∧ c.size + s.length + 1 ≤ c2.capacity ∧
      (∃ k, c2.capacity = c.capacity * 2 ^ k) := by
  unfold resultCollectorAppend
  by_cases hg : c.capacity < c.size + s.length + 1
  · rw [if_pos hg, if_neg (by simp)]
    refine ⟨_, rfl, rfl, rfl, rfl, ?_, ?_⟩
    · exact doubleUntil_ge (c.capacity * 2) (c.size + s.length + 1) (by omega)
    · obtain ⟨j, hj⟩ :=
        doubleUntil_pow_aux (c.size + s.length + 1 - c.capacity * 2) (c.capacity * 2)
          (c.size + s.length + 1) (Nat.le_refl _)
      exact ⟨j + 1, by rw [hj]; ring⟩
  · rw [if_neg hg]
    exact ⟨_, rfl, rfl, rfl, rfl, (by omega : c.size + s.length + 1 ≤ c.capacity),
      ⟨0, by simp⟩⟩

theorem appendOrKeep_true_spec (c : ResultCollector) (s : List Nat) (h0 : 0 < c.capacity) :
    (appendOrKeep true c s).json = c.json ++ s ∧
    (appendOrKeep true c s).size = c.size + s.length ∧
    (appendOrKeep true c s).itemCount = c.itemCount ∧
    c.size + s.length + 1 ≤ (appendOrKeep true c s).capacity := by
  obtain ⟨c2, he, h1, h2, h3, h4, _⟩ := resultCollectorAppend_some c s h0
  unfold appendOrKeep
  rw [he]
  exact ⟨h1, h2, h3, h4⟩

/-- C7: the output buffer starts at capacity 4096 holding the opening
bracket; a successful append extends the buffer with exactly the new
bytes, leaving every previously written byte unchanged, with the capacity
either untouched or doubled some number of times and always sufficient
for the new total size plus the null terminator; and when growth is
required but reallocation fails, the append fails (returns failure)
while the collector value the caller holds, with all its prior contents,
is untouched and still the caller's to release. -/
theorem resultCollector_growth_spec :
    (resultCollectorCreate.capacity = 4096 ∧ resultCollectorCreate.json = [91] ∧
      resultCollectorCreate.size = 1) ∧
    (∀ (c c2 : ResultCollector) (s : List Nat), 0 < c.capacity →
      resultCollectorAppend true c s = some c2 →
      c2.json = c.json ++ s ∧ c2.json.take c.json.length = c.json ∧
      c2.size = c.size + s.length ∧ (∃ k, c2.capacity = c.capacity * 2 ^ k) ∧
      c.size + s.length + 1 ≤ c2.capacity) ∧
    (∀ (c : ResultCollector) (s : List Nat), c.capacity < c.size + s.length + 1 →
      resultCollectorAppend false c s = none) := by
  refine ⟨⟨rfl, rfl, rfl⟩, ?_, ?_⟩
  · intro c c2 s h0 happ
    obtain ⟨c3, he, h1, h2, h3, h4, h5⟩ := resultCollectorAppend_some c s h0
    have hc : c2 = c3 := Option.some.inj (happ.symm.trans he)
    subst hc
    exact ⟨h1, by rw [h1, List.take_left], h2, h5, h4⟩
  · intro c s hg
    unfold resultCollectorAppend
    rw [if_pos hg]
    simp

/-- Witness for C7: appending the byte 65 to a freshly created collector
succeeds without growth and preserves the opening bracket, and an append
to a collector of capacity 2 that would need 3 bytes fails when the
reallocation fails. -/
theorem resultCollector_growth_spec_witness :
    (0 < resultCollectorCreate.capacity ∧
      resultCollectorAppend true resultCollectorCreate [65] =
        some { json := [91, 65], size := 2, capacity := 4096, itemCount := 0 }) ∧
    (({ json := [91, 65], size := 2, capacity := 4096, itemCount := 0 }
        : ResultCollector).json = resultCollectorCreate.json ++ [65] ∧
      ({ json := [91, 65], size := 2, capacity := 4096, itemCount := 0 }
        : ResultCollector).json.take resultCollectorCreate.json.length =
        resultCollectorCreate.json ∧
      ({ json := [91, 65], size := 2, capacity := 4096, itemCount := 0 }
        : ResultCollector).size = resultCollectorCreate.size + [65].length ∧
      (∃ k, ({ json := [91, 65], size := 2, capacity := 4096, itemCount := 0 }
        : ResultCollector).capacity = resultCollectorCreate.capacity * 2 ^ k) ∧
      resultCollectorCreate.size + [65].length + 1 ≤
        ({ json := [91, 65], size := 2, capacity := 4096, itemCount := 0 }
          : ResultCollector).capacity) ∧
    ({ json := [91], size := 1, capacity := 2, itemCount := 0 } : ResultCollector).capacity <
        ({ json := [91], size := 1, capacity := 2, itemCount := 0 }
          : ResultCollector).size + [65].length + 1 ∧
    resultCollectorAppend false { json := [91], size := 1, capacity := 2, itemCount := 0 }
        [65] = none :=
  ⟨⟨by decide, by decide⟩,
    resultCollector_growth_spec.2.1 resultCollectorCreate
      { json := [91, 65], size := 2, capacity := 4096, itemCount := 0 } [65]
      (by decide) (by decide),
    by decide,
    resultCollector_growth_spec.2.2
      { json := [91], size := 1, capacity := 2, itemCount := 0 } [65] (by decide)⟩

theorem callback_skip (alloc : AllocProfile) (node : Node) (c : ResultCollector)
    (h : node.content = none ∨ node.content = some [] ∨
      ∃ s, node.content = some s ∧ cleanText s = []) :
    selectorCallback alloc node c = (LXB_STATUS_OK, c) := by
  unfold selectorCallback
  rcases h with h | h | ⟨s, hs, hcs⟩
  · rw [h]
  · rw [h]
    rfl
  · rw [hs]
    dsimp only
    by_cases h0 : s.length = 0
    · rw [if_pos h0]
    · rw [if_neg h0]
      by_cases hclean : alloc.cleanOk = false
      · rw [if_pos hclean]
      · rw [if_neg hclean]
        rw [if_pos (by rw [hcs]; rfl : (cleanText s).length = 0)]

/-- C3: a matched node whose text content is absent, empty, or normalizes
to the empty string is skipped by the callback: the collector is left
exactly as it was (no item, not even an empty object, is appended) and
the callback returns the lexbor success status, so the skip is not an
error. This holds for every allocation oracle. -/
theorem selectorCallback_skips_empty (alloc : AllocProfile) (node : Node)
    (c : ResultCollector)
    (h : node.content = none ∨ node.content = some [] ∨
      ∃ s, node.content = some s ∧ cleanText s = []) :
    selectorCallback alloc node c = (LXB_STATUS_OK, c) :=
  callback_skip alloc node c h

/-- Witness for C3: a paragraph node whose content is two spaces is
skipped by a callback invocation on a fresh collector. -/
theorem selectorCallback_skips_empty_witness :
    (nodeWhitespaceP.content = none ∨ nodeWhitespaceP.content = some [] ∨
      ∃ s, nodeWhitespaceP.content = some s ∧ cleanText s = []) ∧
    selectorCallback allocAllOk nodeWhitespaceP resultCollectorCreate =
      (LXB_STATUS_OK, resultCollectorCreate) :=
  ⟨Or.inr (Or.inr ⟨[32, 32], rfl, by decide⟩),
    selectorCallback_skips_empty allocAllOk nodeWhitespaceP resultCollectorCreate
      (Or.inr (Or.inr ⟨[32, 32], rfl, by decide⟩))⟩

/-- C2 counterexample: a full extraction call in which every lexbor call
succeeds, one matched node has the nonempty text content byte 65, and the
only allocation failure is the malloc inside `escapeJSON` for that node.
The call nevertheless returns the success output, the empty array, so the
allocation failure did not surface to the caller as an error. -/
theorem parseHTML_silent_alloc_failure_cex :
    parseHTML envEscapeFails (some [104]) (some [104]) = Except.ok [91, 93] := by
  rfl

/-- C2 amended: an allocation failure of the `cleanText` malloc or of the
`escapeJSON` malloc during per-node processing is recovered silently: the
callback drops the affected node, leaves the collector unchanged, and
returns the lexbor success status, so the extraction call can still
return a success result; the failure never surfaces as the call's error
output. -/
theorem selectorCallback_alloc_failure_silent (alloc : AllocProfile) (node : Node)
    (c : ResultCollector) (hfail : alloc.cleanOk = false ∨ alloc.escapeOk = false) :
    selectorCallback alloc node c = (LXB_STATUS_OK, c) := by
  unfold selectorCallback
  rcases node.content with _ | s
  · rfl
  · dsimp only
    by_cases h0 : s.length = 0
    · rw [if_pos h0]
    · rw [if_neg h0]
      by_cases hclean : alloc.cleanOk = false
      · rw [if_pos hclean]
      · rw [if_neg hclean]
        have hesc : alloc.escapeOk = false := by
          rcases hfail with h | h
          · exact absurd h hclean
          · exact h
        by_cases hcl0 : (cleanText s).length = 0
        · simp only [if_pos hcl0]
        · rw [if_neg hcl0, if_pos hesc]

/-- Witness for C2's amended claim: a callback invocation on a node with
nonempty content and a failing escape allocation leaves a fresh collector
unchanged and reports success. -/
theorem selectorCallback_alloc_failure_silent_witness :
    (allocEscapeFails.cleanOk = false ∨ allocEscapeFails.escapeOk = false) ∧
    selectorCallback allocEscapeFails nodeH1A resultCollectorCreate =
      (LXB_STATUS_OK, resultCollectorCreate) :=
  ⟨Or.inr rfl,
    selectorCallback_alloc_failure_silent allocEscapeFails nodeH1A resultCollectorCreate
      (Or.inr rfl)⟩

theorem lxbSelectorsFind_skip (ms : List (Node × AllocProfile)) :
    ∀ c : ResultCollector,
    (∀ p ∈ ms, p.1.content = none ∨ p.1.content = some [] ∨
      ∃ s, p.1.content = some s ∧ cleanText s = []) →
    lxbSelectorsFind ms c = c := by
  induction ms with
  | nil => intro c _; rfl
  | cons p ps ih =>
    intro c h
    unfold lxbSelectorsFind
    rw [List.foldl_cons, callback_skip p.2 p.1 c (h p (List.mem_cons_self p ps))]
    exact ih c fun q hq => h q (List.mem_cons_of_mem p hq)

/-- C4: when the inputs are present, every lexbor call succeeds, and the
query matches no nodes at all (or only nodes whose content is absent,
empty, or normalizes to the empty string, which the callback skips), the
extraction call returns the success output consisting of exactly the two
bytes 91 and 93, the open and close brackets of the empty array. -/
theorem parseHTML_no_matches_empty_array (env : Env) (h q : List Nat)
    (henv : env.createDocOk = true ∧ env.parseStatusOk = true ∧ env.cssCreateOk = true ∧
      env.cssInitOk = true ∧ env.selCreateOk = true ∧ env.selInitOk = true ∧
      env.selListOk = true ∧ env.collectorOk = true ∧ env.closeAllocOk = true ∧
      env.findStatusOk = true)
    (hm : ∀ p ∈ env.foundNodes, p.1.content = none ∨ p.1.content = some [] ∨
      ∃ s, p.1.content = some s ∧ cleanText s = []) :
    parseHTML env (some h) (some q) = Except.ok [91, 93] := by
  obtain ⟨h1, h2, h3, h4, h5, h6, h7, h8, h9, h10⟩ := henv
  unfold parseHTML
  simp only [h1, h2, h3, h4, h5, h6, h7, h8, h9, h10, Bool.true_eq_false, if_false]
  rw [lxbSelectorsFind_skip env.foundNodes resultCollectorCreate hm]
  rfl

/-- Witness for C4: in the environment where every call succeeds and no
node matches, extraction of a one-byte document with a one-byte selector
returns the empty-array bytes. -/
theorem parseHTML_no_matches_empty_array_witness :
    ((envNoMatches.createDocOk = true ∧ envNoMatches.parseStatusOk = true ∧
      envNoMatches.cssCreateOk = true ∧ envNoMatches.cssInitOk = true ∧
      envNoMatches.selCreateOk = true ∧ envNoMatches.selInitOk = true ∧
      envNoMatches.selListOk = true ∧ envNoMatches.collectorOk = true ∧
      envNoMatches.closeAllocOk = true ∧ envNoMatches.findStatusOk = true) ∧
     (∀ p ∈ envNoMatches.foundNodes, p.1.content = none ∨ p.1.content = some [] ∨
       ∃ s, p.1.content = some s ∧ cleanText s = [])) ∧
    parseHTML envNoMatches (some [104]) (some [104]) = Except.ok [91, 93] :=
  ⟨⟨⟨rfl, rfl, rfl, rfl, rfl, rfl, rfl, rfl, rfl, rfl⟩, by simp [envNoMatches]⟩,
    parseHTML_no_matches_empty_array envNoMatches [104] [104]
      ⟨rfl, rfl, rfl, rfl, rfl, rfl, rfl, rfl, rfl, rfl⟩ (by simp [envNoMatches])⟩

/-- C9: every extraction call produces exactly one of the two outputs: the
result is a success value exactly when it is not an error value, and a
missing (null) document string or query string makes the call fail
immediately with the error text Invalid arguments, producing no JSON
output. -/
theorem parseHTML_exactly_one_output :
    (∀ (env : Env) (q : Option (List Nat)),
      parseHTML env none q = Except.error "Invalid arguments") ∧
    (∀ (env : Env) (h : Option (List Nat)),
      parseHTML env h none = Except.error "Invalid arguments") ∧
    (∀ (env : Env) (h q : Option (List Nat)),
      (isOkB (parseHTML env h q) = true ∧ ∃ j, parseHTML env h q = Except.ok j) ∨
      (isOkB (parseHTML env h q) = false ∧ ∃ e, parseHTML env h q = Except.error e)) := by
  refine ⟨?_, ?_, ?_⟩
  · intro env q
    cases q <;> rfl
  · intro env h
    cases h <;> rfl
  · intro env h q
    cases hr : parseHTML env h q with
    | ok j => exact Or.inl ⟨rfl, ⟨j, rfl⟩⟩
    | error e => exact Or.inr ⟨rfl, ⟨e, rfl⟩⟩

theorem itemHeader_length (tag : List Nat) : (itemHeader tag).length = 22 + tag.length := by
  simp only [itemHeader, typeKey, contentKey, List.length_append, List.length_cons,
    List.length_nil]
  omega

/-- C10: the per-item JSON head is formatted through a fixed 256-byte
stack buffer, so snprintf stores at most 255 bytes of it. For every tag
name longer than 235 bytes the stored bytes are a strict proper prefix of
the intended head (the surrounding object syntax is cut off: a nonempty
tail is missing), and once the tag name exceeds 246 bytes the stored
bytes contain only the first 246 bytes of the tag name after the type key
rather than the full tag name the output grammar prescribes. -/
theorem snprintfItem_truncates_long_tags (tag : List Nat) (h : 236 ≤ tag.length) :
    (snprintfItem tag).length = 255 ∧
    snprintfItem tag ≠ itemHeader tag ∧
    (∃ cut, cut ≠ [] ∧ snprintfItem tag ++ cut = itemHeader tag) ∧
    (247 ≤ tag.length →
      snprintfItem tag = typeKey ++ tag.take 246 ∧ tag.take 246 ≠ tag) := by
  have hlen : (itemHeader tag).length = 22 + tag.length := itemHeader_length tag
  refine ⟨?_, ?_, ?_, ?_⟩
  · rw [snprintfItem, List.length_take, hlen]
    omega
  · intro he
    have hl := congrArg List.length he
    rw [snprintfItem, List.length_take, hlen] at hl
    omega
  · refine ⟨(itemHeader tag).drop 255, ?_, List.take_append_drop 255 _⟩
    intro hd
    have hl := congrArg List.length hd
    rw [List.length_drop, hlen, List.length_nil] at hl
    omega
  · intro h247
    constructor
    · rw [snprintfItem, itemHeader, List.append_assoc, List.take_append_eq_append_take]
      have h9 : (typeKey : List Nat).length = 9 := rfl
      rw [List.take_of_length_le (by rw [h9]; omega), h9]
      have h246 : (255 - 9 : Nat) = 246 := by norm_num
      rw [h246, List.take_append_eq_append_take]
      rw [(by omega : 246 - tag.length = 0), List.take_zero, List.append_nil]
    · intro he
      have hl := congrArg List.length he
      rw [List.length_take] at hl
      omega

/-- Witness for C10: a 300-byte tag name of letter a bytes is truncated. -/
theorem snprintfItem_truncates_long_tags_witness :
    236 ≤ (List.replicate 300 97 : List Nat).length ∧
    ((snprintfItem (List.replicate 300 97)).length = 255 ∧
      snprintfItem (List.replicate 300 97) ≠ itemHeader (List.replicate 300 97) ∧
      (∃ cut, cut ≠ [] ∧ snprintfItem (List.replicate 300 97) ++ cut =
        itemHeader (List.replicate 300 97)) ∧
      (247 ≤ (List.replicate 300 97 : List Nat).length →
        snprintfItem (List.replicate 300 97) =
          typeKey ++ (List.replicate 300 97 : List Nat).take 246 ∧
        (List.replicate 300 97 : List Nat).take 246 ≠ List.replicate 300 97)) :=
  ⟨by norm_num, snprintfItem_truncates_long_tags (List.replicate 300 97) (by norm_num)⟩

theorem intercalate_concat (l : List (List Nat)) (x : List Nat) (h : l ≠ []) :
    List.intercalate [44] (l ++ [x]) = List.intercalate [44] l ++ 44 :: x := by
  induction l with
  | nil => exact absurd rfl h
  | cons a l2 ih =>
    cases l2 with
    | nil =>
      rw [List.cons_append, List.nil_append, intercalate_cons_eq,
        if_neg (by simp : ¬ ([x] : List (List Nat)) = []), intercalate_cons_eq,
        if_pos rfl, intercalate_cons_eq, if_pos rfl]
      simp
    | cons b bs =>
      rw [List.cons_append]
      rw [intercalate_cons_eq [44] a ((b :: bs) ++ [x]),
        if_neg (by simp : ¬ (b :: bs) ++ [x] = [])]
      rw [ih (by simp)]
      rw [intercalate_cons_eq [44] a (b :: bs), if_neg (by simp : ¬ (b :: bs) = [])]
      simp

theorem appendOrKeep_size_sync (c : ResultCollector) (s : List Nat) (h0 : 0 < c.capacity)
    (h : c.size = c.json.length) :
    (appendOrKeep true c s).size = (appendOrKeep true c s).json.length := by
  obtain ⟨h1, h2, _, _⟩ := appendOrKeep_true_spec c s h0
  rw [h2, h1, List.length_append, h]

theorem appendOrKeep_pos (c : ResultCollector) (s : List Nat) (h0 : 0 < c.capacity) :
    0 < (appendOrKeep true c s).capacity := by
  have h4 := (appendOrKeep_true_spec c s h0).2.2.2
  omega

theorem goodItem_mk (tag content : List Nat) (hs : tagSafe tag = true)
    (he : escapedSeqB content = true) : GoodItem (ItemStr tag content) :=
  ⟨tag, content, hs, he, rfl⟩

theorem goodItems_concat {items : List (List Nat)} (h : ∀ i ∈ items, GoodItem i)
    (x : List Nat) (hx : GoodItem x) : ∀ i ∈ items ++ [x], GoodItem i := by
  intro i hi
  rcases List.mem_append.mp hi with hh | hh
  · exact h i hh
  · rw [List.mem_singleton] at hh
    exact hh ▸ hx

theorem intercalate_single (x : List Nat) : List.intercalate [44] [x] = x := by
  rw [intercalate_cons_eq, if_pos rfl, List.append_nil]

/-- C8 amended: after buffer creation and after each append performed by
the per-node callback, the output buffer is a prefix of a well-formed
serialized array lacking only its tail through the closing bracket, the
used size never exceeds the capacity, and one byte of room for the null
terminator always remains, PROVIDED every allocation succeeds and the
processed node's tag name contains neither quote nor backslash and its
formatted head fits the 256-byte snprintf buffer; a full callback
invocation then carries the between-items invariant to the next
invocation. The provisos are necessary: without them the invariant fails
on reachable inputs (see the counterexample with a quote-bearing tag). -/
theorem collector_json_invariant :
    (ValidArrayExtendable resultCollectorCreate.json ∧
      resultCollectorCreate.size ≤ resultCollectorCreate.capacity ∧
      resultCollectorCreate.size + 1 ≤ resultCollectorCreate.capacity) ∧
    (∀ (node : Node) (c : ResultCollector), CollectorInv c →
      tagSafe (nodeTypeOf node) = true →
      (itemHeader (nodeTypeOf node)).length ≤ 255 →
      (∀ st ∈ callbackTrace node c, ValidArrayExtendable st.json ∧
        st.size ≤ st.capacity ∧ st.size + 1 ≤ st.capacity) ∧
      CollectorInv (selectorCallback allocAllOk node c).2) := by
  constructor
  · refine ⟨⟨[93], [], fun i hi => absurd hi (List.not_mem_nil i), rfl⟩,
      by decide, by decide⟩
  · intro node c hInv hsafe hlen
    obtain ⟨items, hgood, hjson, hcount, hsize, hcap⟩ := hInv
    have hpos : 0 < c.capacity := by omega
    have hheader : snprintfItem (nodeTypeOf node) = itemHeader (nodeTypeOf node) := by
      rw [snprintfItem]
      exact List.take_of_length_le hlen
    unfold callbackTrace selectorCallback
    rcases node.content with _ | content
    · exact ⟨fun st hst => absurd hst (List.not_mem_nil st),
        ⟨items, hgood, hjson, hcount, hsize, hcap⟩⟩
    · dsimp only [allocAllOk]
      by_cases h0 : content.length = 0
      · simp only [if_pos h0]
        exact ⟨fun st hst => absurd hst (List.not_mem_nil st),
          ⟨items, hgood, hjson, hcount, hsize, hcap⟩⟩
      · simp only [if_neg h0, if_neg (by simp : ¬ (true = false))]
        by_cases hcl : (cleanText content).length = 0
        · simp only [if_pos hcl]
          exact ⟨fun st hst => absurd hst (List.not_mem_nil st),
            ⟨items, hgood, hjson, hcount, hsize, hcap⟩⟩
        · simp only [if_neg hcl]
          set tag := nodeTypeOf node with htag
          set e := escapeJSON (cleanText content) with hedef
          have hesc : escapedSeqB e = true := escapedSeqB_escapeJSON _
          by_cases hic : 0 < c.itemCount
          · -- a previous item exists: the comma append happens first
            simp only [if_pos hic]
            have hne : items ≠ [] := by
              intro he2
              rw [he2] at hcount
              simp at hcount
              omega
            have A1 := appendOrKeep_true_spec c [44] hpos
            have P1 := appendOrKeep_pos c [44] hpos
            have S1 := appendOrKeep_size_sync c [44] hpos hsize
            set c1 := appendOrKeep true c [44] with hc1def
            have A2 := appendOrKeep_true_spec c1 (snprintfItem tag) P1
            have P2 := appendOrKeep_pos c1 (snprintfItem tag) P1
            have S2 := appendOrKeep_size_sync c1 (snprintfItem tag) P1 S1
            set c2 := appendOrKeep true c1 (snprintfItem tag) with hc2def
            have A3 := appendOrKeep_true_spec c2 e P2
            have P3 := appendOrKeep_pos c2 e P2
            have S3 := appendOrKeep_size_sync c2 e P2 S2
            set c3 := appendOrKeep true c2 e with hc3def
            have A4 := appendOrKeep_true_spec c3 itemClose P3
            have S4 := appendOrKeep_size_sync c3 itemClose P3 S3
            set c4 := appendOrKeep true c3 itemClose with hc4def
            constructor
            · intro st hst
              simp only [List.singleton_append, List.mem_cons, List.not_mem_nil,
                or_false] at hst
              rcases hst with rfl | rfl | rfl | rfl
              · refine ⟨⟨ItemStr tag [] ++ [93], items ++ [ItemStr tag []],
                  goodItems_concat hgood _ (goodItem_mk tag [] hsafe rfl), ?_⟩, ?_⟩
                · rw [A1.1, hjson, JsonArrayStr, intercalate_concat items _ hne, ItemStr]
                  simp [List.append_assoc]
                · have h1 := A1.2.2.2
                  have h2 := A1.2.1
                  omega
              · refine ⟨⟨itemClose ++ [93], items ++ [ItemStr tag []],
                  goodItems_concat hgood _ (goodItem_mk tag [] hsafe rfl), ?_⟩, ?_⟩
                · rw [A2.1, A1.1, hjson, hheader, JsonArrayStr,
                    intercalate_concat items _ hne, ItemStr]
                  simp [List.append_assoc]
                · have h1 := A2.2.2.2
                  have h2 := A2.2.1
                  omega
              · refine ⟨⟨itemClose ++ [93], items ++ [ItemStr tag e],
                  goodItems_concat hgood _ (goodItem_mk tag e hsafe hesc), ?_⟩, ?_⟩
                · rw [A3.1, A2.1, A1.1, hjson, hheader, JsonArrayStr,
                    intercalate_concat items _ hne, ItemStr]
                  simp [List.append_assoc]
                · have h1 := A3.2.2.2
                  have h2 := A3.2.1
                  omega
              · refine ⟨⟨[93], items ++ [ItemStr tag e],
                  goodItems_concat hgood _ (goodItem_mk tag e hsafe hesc), ?_⟩, ?_⟩
                · rw [A4.1, A3.1, A2.1, A1.1, hjson, hheader, JsonArrayStr,
                    intercalate_concat items _ hne, ItemStr]
                  simp [List.append_assoc]
                · have h1 := A4.2.2.2
                  have h2 := A4.2.1
                  omega
            · refine ⟨items ++ [ItemStr tag e],
                goodItems_concat hgood _ (goodItem_mk tag e hsafe hesc), ?_, ?_, S4, ?_⟩
              · show c4.json = _
                rw [A4.1, A3.1, A2.1, A1.1, hjson, hheader,
                  intercalate_concat items _ hne, ItemStr]
                simp [List.append_assoc]
              · show c4.itemCount + 1 = _
                rw [A4.2.2.1, A3.2.2.1, A2.2.2.1, A1.2.2.1, hcount]
                simp
              · have h1 := A4.2.2.2
                have h2 := A4.2.1
                show c4.size + 1 ≤ c4.capacity
                omega
          · -- no previous item: no comma append
            simp only [if_neg hic]
            have hitems : items = [] := by
              rw [hcount] at hic
              exact List.length_eq_zero.mp (by omega)
            have hcjson : c.json = [91] := by
              rw [hjson, hitems]
              rfl
            have A2 := appendOrKeep_true_spec c (snprintfItem tag) hpos
            have P2 := appendOrKeep_pos c (snprintfItem tag) hpos
            have S2 := appendOrKeep_size_sync c (snprintfItem tag) hpos hsize
            set c2 := appendOrKeep true c (snprintfItem tag) with hc2def
            have A3 := appendOrKeep_true_spec c2 e P2
            have P3 := appendOrKeep_pos c2 e P2
            have S3 := appendOrKeep_size_sync c2 e P2 S2
            set c3 := appendOrKeep true c2 e with hc3def
            have A4 := appendOrKeep_true_spec c3 itemClose P3
            have S4 := appendOrKeep_size_sync c3 itemClose P3 S3
            set c4 := appendOrKeep true c3 itemClose with hc4def
            constructor
            · intro st hst
              simp only [List.nil_append, List.mem_cons, List.not_mem_nil,
                or_false] at hst
              rcases hst with rfl | rfl | rfl
              · refine ⟨⟨itemClose ++ [93], [ItemStr tag []],
                  fun i hi => by
                    rw [List.mem_singleton] at hi
                    exact hi ▸ goodItem_mk tag [] hsafe rfl, ?_⟩, ?_⟩
                · rw [A2.1, hcjson, hheader, JsonArrayStr, intercalate_single, ItemStr]
                  simp [List.append_assoc]
                · have h1 := A2.2.2.2
                  have h2 := A2.2.1
                  omega
              · refine ⟨⟨itemClose ++ [93], [ItemStr tag e],
                  fun i hi => by
                    rw [List.mem_singleton] at hi
                    exact hi ▸ goodItem_mk tag e hsafe hesc, ?_⟩, ?_⟩
                · rw [A3.1, A2.1, hcjson, hheader, JsonArrayStr, intercalate_single,
                    ItemStr]
                  simp [List.append_assoc]
                · have h1 := A3.2.2.2
                  have h2 := A3.2.1
                  omega
              · refine ⟨⟨[93], [ItemStr tag e],
                  fun i hi => by
                    rw [List.mem_singleton] at hi
                    exact hi ▸ goodItem_mk tag e hsafe hesc, ?_⟩, ?_⟩
                · rw [A4.1, A3.1, A2.1, hcjson, hheader, JsonArrayStr, intercalate_single,
                    ItemStr]
                  simp [List.append_assoc]
                · have h1 := A4.2.2.2
                  have h2 := A4.2.1
                  omega
            · refine ⟨[ItemStr tag e],
                fun i hi => by
                  rw [List.mem_singleton] at hi
                  exact hi ▸ goodItem_mk tag e hsafe hesc, ?_, ?_, S4, ?_⟩
              · show c4.json = _
                rw [A4.1, A3.1, A2.1, hcjson, hheader, intercalate_single, ItemStr]
                simp [List.append_assoc]
              · show c4.itemCount + 1 = _
                rw [A4.2.2.1, A3.2.2.1, A2.2.2.1, hcount, hitems]
                simp
              · have h1 := A4.2.2.2
                have h2 := A4.2.1
                show c4.size + 1 ≤ c4.capacity
                omega

/-- Witness for C8: one callback invocation on a fresh collector, for an
element node with tag name h1 and content the byte 65, keeps the
invariant at every append. -/
theorem collector_json_invariant_witness :
    (CollectorInv resultCollectorCreate ∧ tagSafe (nodeTypeOf nodeH1A) = true ∧
      (itemHeader (nodeTypeOf nodeH1A)).length ≤ 255) ∧
    ((∀ st ∈ callbackTrace nodeH1A resultCollectorCreate, ValidArrayExtendable st.json ∧
        st.size ≤ st.capacity ∧ st.size + 1 ≤ st.capacity) ∧
      CollectorInv (selectorCallback allocAllOk nodeH1A resultCollectorCreate).2) :=
  ⟨⟨⟨[], fun i hi => absurd hi (List.not_mem_nil i), rfl, rfl, rfl, by decide⟩,
      by decide, by decide⟩,
    collector_json_invariant.2 nodeH1A resultCollectorCreate
      ⟨[], fun i hi => absurd hi (List.not_mem_nil i), rfl, rfl, rfl, by decide⟩
      (by decide) (by decide)⟩

theorem quoteTag_header_not_extendable (suffix : List Nat) :
    ¬ ValidArrayExtendable ([91] ++ typeKey ++ 97 :: 34 :: 98 :: suffix) := by
  rintro ⟨rest, items, hgood, heq⟩
  cases items with
  | nil =>
    have h0 : JsonArrayStr [] = [91, 93] := rfl
    rw [h0] at heq
    have hl := congrArg List.length heq
    have h9 : (typeKey : List Nat).length = 9 := rfl
    simp only [List.length_append, List.length_cons, h9] at hl
    omega
  | cons i1 others =>
    obtain ⟨tag1, content1, hts, hesc1, hi⟩ := hgood i1 (List.mem_cons_self i1 others)
    obtain ⟨W, hW⟩ : ∃ W, List.intercalate [44] (i1 :: others) = i1 ++ W :=
      ⟨if others = [] then [] else [44] ++ List.intercalate [44] others,
        by rw [intercalate_cons_eq]⟩
    simp only [JsonArrayStr] at heq
    rw [hW, hi] at heq
    simp only [ItemStr, itemHeader, List.append_assoc, List.cons_append,
      List.nil_append] at heq
    injection heq with _ h2
    have h3 := List.append_cancel_left h2
    cases tag1 with
    | nil =>
      simp [contentKey] at h3
    | cons t ts =>
      rw [List.cons_append] at h3
      injection h3 with ht htail
      cases ts with
      | nil =>
        rw [List.nil_append] at htail
        simp [contentKey] at htail
      | cons t2 ts2 =>
        rw [List.cons_append] at htail
        injection htail with ht2 _
        rw [← ht2] at hts
        simp [tagSafe] at hts

/-- C8 counterexample: during an extraction of a matched element whose
tag name carries a literal quote byte (bytes 97 34 98, the tokenizer's
tag name for markup written a, quote, b), the buffer state reached after
the callback's final append is not a prefix of any well-formed
serialized array: the raw quote spliced into the type field commits the
buffer to invalid array syntax, refuting the unconditional invariant. -/
theorem collector_json_invariant_cex :
    ({ json := badJson, size := 29, capacity := 4096, itemCount := 0 } : ResultCollector) ∈
      callbackTrace nodeQuoteTag resultCollectorCreate ∧
    ¬ ValidArrayExtendable badJson :=
  ⟨by decide, by
    have h : badJson =
        [91] ++ typeKey ++ 97 :: 34 :: 98 :: (contentKey ++ [65] ++ [34, 125]) := rfl
    rw [h]
    exact quoteTag_header_not_extendable (contentKey ++ [65] ++ [34, 125])⟩
